import Mathlib

/-
Verification of the real-time ingestion-and-aggregation core of the SIEM
frontend (siem_server/frontend).  Each definition below is a shallow
embedding of a function or stateful update found in the TypeScript source;
the file/symbol it was translated from is named in its comment.

Conventions:
* character data (event types, payloads, ip addresses) is `List Char`;
* timestamps are `Nat` milliseconds since the epoch, with calendar
  components taken in UTC (the spec's §9 fixes UTC-normalized bucket keys
  as the intended behavior; the source's local-time components agree with
  this whenever the timezone offset is a multiple of the bucket width,
  which holds for the only configured width, 5 minutes);
* JS `number` arithmetic in the stats engine is embedded as exact `ℚ`.
-/

namespace Siem

/-! ## Bounded Event Store
Translated from `pages/Dashboard.tsx` (WebSocket handler:
`setLogs(prev => [log, ...prev].slice(0, 1000))`) and from the
`EventTableWrapper` flush (`[...buffer, ...prevLogs].slice(0, 1000)`). -/

/-- Store capacity: the literal `1000` used by every `slice(0, 1000)` call. -/
def storeCap : Nat := 1000

/-- One flush of the buffered batch into the store:
`[...buffer, ...prevLogs].slice(0, 1000)`. -/
def flushStore {α : Type} (buffer prev : List α) : List α :=
  (buffer ++ prev).take storeCap

/-- The store after a sequence of flushed batches, starting empty. -/
def applyBatches {α : Type} (batches : List (List α)) : List α :=
  batches.foldl (fun st b => flushStore b st) []

theorem take_append_take {α : Type} (n : Nat) (x y : List α) :
    (x ++ y.take n).take n = (x ++ y).take n := by
  rw [List.take_append_eq_append_take, List.take_append_eq_append_take,
    List.take_take]
  congr 2
  exact Nat.min_eq_left (Nat.sub_le n x.length)

theorem foldl_flushStore (batches : List (List α)) (st : List α)
    (hst : st.length ≤ storeCap) :
    batches.foldl (fun st b => flushStore b st) st
      = (batches.reverse.flatten ++ st).take storeCap := by
  induction batches generalizing st with
  | nil =>
    simp only [List.foldl_nil, List.reverse_nil, List.flatten_nil, List.nil_append]
    exact (List.take_of_length_le hst).symm
  | cons b bs ih =>
    simp only [List.foldl_cons, List.reverse_cons, List.flatten_append,
      List.flatten_cons, List.flatten_nil, List.append_nil]
    rw [ih (flushStore b st) (by simp [flushStore])]
    show (bs.reverse.flatten ++ (b ++ st).take storeCap).take storeCap = _
    rw [take_append_take, List.append_assoc]

/-- C1 (amended): the store's length never exceeds the capacity 1000, and
after every flush it consists of exactly the `min 1000 total` most recently
*arrived* events: the latest batch first, each batch kept in arrival order,
truncated at 1000 (so eviction always drops the oldest-arrived events). -/
theorem boundedStore_most_recent_arrivals {α : Type} (batches : List (List α)) :
    applyBatches batches = (batches.reverse.flatten).take storeCap ∧
    (applyBatches batches).length ≤ storeCap := by
  have h : applyBatches batches = (batches.reverse.flatten).take storeCap := by
    have := foldl_flushStore (α := α) batches [] (by simp [storeCap])
    simpa [applyBatches] using this
  exact ⟨h, by rw [h]; exact List.length_take_le storeCap _⟩

/-- C1 (counterexample to the claim as stated): flushing the single batch
`[(ts 1), (ts 2)]` (arrival order, as accumulated by `buffer.push`) into an
empty store yields `[(1,0), (2,0)]`, which is *not* in recency order
(timestamp-descending): the claim that after each update the store holds the
most-recent-by-timestamp events *in recency order* fails on the code's
`[...buffer, ...prevLogs].slice(0, 1000)` update. -/
theorem boundedStore_not_recency_ordered :
    flushStore [((1 : Nat), (0 : Nat)), (2, 0)] [] = [(1, 0), (2, 0)] ∧
    ¬ List.Pairwise (fun a b : Nat × Nat => b.1 ≤ a.1)
        (flushStore [((1 : Nat), (0 : Nat)), (2, 0)] []) := by
  constructor
  · rfl
  · decide

/-! ## Buffering/Batching Layer
Translated from the `EventTableWrapper` WebSocket subscription
(`src/unnamed/part_003`, lines 170-198): `buffer.push(newLog)`; if no
`flushTimer` is pending one is started; when it fires, the whole buffer is
prepended to the store in one `setLogs` update, then `buffer = []` and
`flushTimer = null`. -/

structure BufferState (α : Type) where
  buffer : List α
  timerActive : Bool
  store : List α
  deriving DecidableEq

/-- Initial state of the subscription effect: empty buffer, no timer. -/
def bufInit {α : Type} : BufferState α := ⟨[], false, []⟩

/-- One observable transition of the buffer/timer machine.
`push` is the `onMessage` handler (append to buffer; ensure a timer is
pending); `fire` is the `setTimeout` callback (atomically deliver the whole
buffer to the store, clear the buffer, release the timer handle). -/
inductive BufStep {α : Type} : BufferState α → BufferState α → Prop
  | push (e : α) (s : BufferState α) :
      BufStep s ⟨s.buffer ++ [e], true, s.store⟩
  | fire (s : BufferState α) (h : s.timerActive = true) :
      BufStep s ⟨[], false, flushStore s.buffer s.store⟩

/-- States reachable from the freshly-mounted subscription. -/
def BufReachable {α : Type} (s : BufferState α) : Prop :=
  Relation.ReflTransGen BufStep bufInit s

/-- C3: in every reachable state a timer is pending exactly when the buffer
is non-empty — so the (single) timer is started precisely when the first
event enters the empty buffer, and it is released on flush; and every
transition that releases the timer is the flush, which delivers the entire
accumulated batch in arrival order in one atomic store update, after which
the buffer is empty and the timer handle is released. -/
theorem bufferFlush_quiescence {α : Type} (s : BufferState α)
    (hs : BufReachable s) :
    (s.timerActive = true ↔ s.buffer ≠ []) ∧
    (∀ s2 : BufferState α, BufStep s s2 → s2.timerActive = false →
      s.timerActive = true ∧ s2.store = flushStore s.buffer s.store ∧
        s2.buffer = [] ∧ s2.timerActive = false) := by
  constructor
  · induction hs with
    | refl => simp [bufInit]
    | tail _ hstep ih =>
      cases hstep with
      | push e s => simp
      | fire s h => simp
  · intro s2 hstep h2
    cases hstep with
    | push e s => simp at h2
    | fire s h => exact ⟨h, rfl, rfl, rfl⟩

/-- C3 (witness): the state reached by pushing one event into the fresh
subscription is reachable, and the theorem's conclusion holds there. -/
theorem bufferFlush_quiescence_witness :
    (((⟨[0], true, []⟩ : BufferState Nat).timerActive = true ↔
        (⟨[0], true, []⟩ : BufferState Nat).buffer ≠ []) ∧
      (∀ s2 : BufferState Nat, BufStep ⟨[0], true, []⟩ s2 →
        s2.timerActive = false →
        (⟨[0], true, []⟩ : BufferState Nat).timerActive = true ∧
          s2.store = flushStore [0] [] ∧ s2.buffer = [] ∧
            s2.timerActive = false)) :=
  bufferFlush_quiescence (⟨[0], true, []⟩ : BufferState Nat)
    (Relation.ReflTransGen.single (BufStep.push 0 bufInit))

/-! ## Stream Connector
Translated from `connectWebSocket` (`src/unnamed/part_010`, lines 112-161):
`reconnectAttempts` starts at 0, `maxReconnectAttempts = 5`,
`reconnectDelay = 1000`; `onopen` resets the counter to 0; `onclose` with
`code !== 1000 && reconnectAttempts < maxReconnectAttempts` increments the
counter and schedules a reconnect after `reconnectDelay * 2^(attempts-1)`
ms; otherwise if `reconnectAttempts >= maxReconnectAttempts` it reports
"Max reconnection attempts reached" and schedules nothing (retrying stops
until `connectWebSocket` is invoked again, i.e. an explicit reopen). -/

def maxReconnectAttempts : Nat := 5

def reconnectDelayBase : Nat := 1000

structure ConnState where
  reconnectAttempts : Nat
  /-- the backoff delay of the reconnect scheduled by the latest event,
  if that event scheduled one -/
  scheduledDelay : Option Nat
  /-- latest event hit the "Max reconnection attempts reached" branch -/
  maxedOut : Bool
  deriving DecidableEq

inductive WsEvent
  | opened
  | closed (code : Nat)
  deriving DecidableEq

/-- Fresh state of a `connectWebSocket` invocation. -/
def wsInit : ConnState := ⟨0, none, false⟩

/-- Effect of one `onopen` / `onclose` callback on the connector state. -/
def wsStep (s : ConnState) : WsEvent → ConnState
  | .opened => ⟨0, none, false⟩
  | .closed code =>
      if code ≠ 1000 ∧ s.reconnectAttempts < maxReconnectAttempts then
        ⟨s.reconnectAttempts + 1,
          some (reconnectDelayBase * 2 ^ (s.reconnectAttempts + 1 - 1)),
          false⟩
      else if maxReconnectAttempts ≤ s.reconnectAttempts then
        ⟨s.reconnectAttempts, none, true⟩
      else
        ⟨s.reconnectAttempts, none, false⟩

/-- Connector state after a sequence of socket lifecycle events. -/
def wsRun (events : List WsEvent) : ConnState :=
  events.foldl wsStep wsInit

theorem wsStep_attempts_le (s : ConnState) (e : WsEvent)
    (h : s.reconnectAttempts ≤ maxReconnectAttempts) :
    (wsStep s e).reconnectAttempts ≤ maxReconnectAttempts := by
  cases e with
  | opened => simp [wsStep]
  | closed code =>
    simp only [wsStep]
    split
    · next hc => exact hc.2
    · split <;> exact h

/-- C4: (a) whenever an unexpected closure schedules reconnect attempt `n`
(counting from 1), its delay is `base * 2^(n-1)`; (b) the attempt counter
never exceeds the maximum retry count 5; (c) once the counter has reached
the cap, a further closure surfaces the terminal disconnected state
("Max reconnection attempts reached") and schedules no retry; (d) a
successful reconnect (`onopen`) resets the counter to zero; (e) after `N`
consecutive unexpected failures with `N` at most the cap, the counter
equals `N`. -/
theorem connector_backoff_retry_cap :
    (∀ (s : ConnState) (code : Nat) (d : Nat),
      (wsStep s (.closed code)).scheduledDelay = some d →
        (wsStep s (.closed code)).reconnectAttempts
            = s.reconnectAttempts + 1 ∧
          d = reconnectDelayBase *
                2 ^ ((wsStep s (.closed code)).reconnectAttempts - 1)) ∧
    (∀ events : List WsEvent,
      (wsRun events).reconnectAttempts ≤ maxReconnectAttempts) ∧
    (∀ (s : ConnState) (code : Nat),
      maxReconnectAttempts ≤ s.reconnectAttempts →
        wsStep s (.closed code)
          = ⟨s.reconnectAttempts, none, true⟩) ∧
    (∀ s : ConnState, wsStep s .opened = wsInit) ∧
    (∀ (code : Nat), code ≠ 1000 → ∀ N : Nat, N ≤ maxReconnectAttempts →
      (wsRun (List.replicate N (.closed code))).reconnectAttempts = N) := by
  refine ⟨?_, ?_, ?_, ?_, ?_⟩
  · intro s code d h
    simp only [wsStep] at h ⊢
    by_cases hc : code ≠ 1000 ∧ s.reconnectAttempts < maxReconnectAttempts
    · rw [if_pos hc] at h ⊢
      exact ⟨rfl, (Option.some.inj h).symm⟩
    · rw [if_neg hc] at h
      split at h <;> simp at h
  · intro events
    have base : wsInit.reconnectAttempts ≤ maxReconnectAttempts := by
      simp [wsInit, maxReconnectAttempts]
    rw [wsRun]
    generalize wsInit = s at base ⊢
    induction events generalizing s with
    | nil => exact base
    | cons e es ih => exact ih _ (wsStep_attempts_le s e base)
  · intro s code h
    simp only [wsStep]
    rw [if_neg, if_pos h]
    intro hc
    exact absurd h (Nat.not_le.mpr hc.2)
  · intro s
    rfl
  · intro code hcode N
    have gen : ∀ (n : Nat) (s : ConnState),
        s.reconnectAttempts + n ≤ maxReconnectAttempts →
        ((List.replicate n (WsEvent.closed code)).foldl
            wsStep s).reconnectAttempts = s.reconnectAttempts + n := by
      intro n
      induction n with
      | zero => intro s _; simp
      | succ m ih =>
        intro s hs
        rw [List.replicate_succ, List.foldl_cons]
        have hlt : s.reconnectAttempts < maxReconnectAttempts := by omega
        have hstep : wsStep s (.closed code)
            = ⟨s.reconnectAttempts + 1,
                some (reconnectDelayBase * 2 ^ (s.reconnectAttempts + 1 - 1)),
                false⟩ := by
          simp only [wsStep]
          rw [if_pos ⟨hcode, hlt⟩]
        rw [hstep]
        have h2 := ih ⟨s.reconnectAttempts + 1,
            some (reconnectDelayBase * 2 ^ (s.reconnectAttempts + 1 - 1)),
            false⟩ (by simp; omega)
        simp only at h2
        rw [h2]
        omega
    intro hN
    have := gen N wsInit (by simpa [wsInit] using hN)
    simpa [wsRun, wsInit] using this

/-- C4 (witness): a connection drop with close code 1006 followed by 3
consecutive failures leaves the attempt counter at 3. -/
theorem connector_backoff_retry_cap_witness :
    (1006 : Nat) ≠ 1000 ∧ (3 : Nat) ≤ maxReconnectAttempts ∧
    (wsRun (List.replicate 3 (.closed 1006))).reconnectAttempts = 3 :=
  ⟨by decide, by decide,
    connector_backoff_retry_cap.2.2.2.2 1006 (by decide) 3 (by decide)⟩

/-! ## Text utilities
Embeddings of the JS string operations used by the classifier and the
stats engine (`toUpperCase`, `trim`, `split(',')`, `includes`). -/

/-- Character data; JS strings are embedded as lists of characters. -/
abbrev Str := List Char

/-- JS `s.toUpperCase()`. -/
def upper (s : Str) : Str := s.map Char.toUpper

/-- JS `s.trim()`: strip leading and trailing whitespace. -/
def trimStr (s : Str) : Str :=
  ((s.dropWhile Char.isWhitespace).reverse.dropWhile Char.isWhitespace).reverse

/-- JS `pat` `.includes` test: `pat` occurs as a contiguous substring. -/
def includesStr (s pat : Str) : Bool := decide (pat <:+: s)

/-! ## Severity Classifier
Translated from `getSeverityConfig` in
`components/siem/EventTable.tsx` (lines 61-77): the `{critical, warning,
info}` rule strings are comma-split, trimmed, upper-cased and emptied-out;
the event type is upper-cased and matched by substring inclusion, critical
first, then warning, then info, else the default badge. -/

inductive Severity
  | critical
  | warning
  | info
  | default
  deriving DecidableEq

structure SeverityRules where
  critical : Str
  warning : Str
  info : Str

/-- `severities.critical.split(',').map(t => t.trim().toUpperCase()).filter(t => t)`. -/
def parseSeverityList (field : Str) : List Str :=
  ((field.splitOn ',').map (fun t => upper (trimStr t))).filter (fun t => t ≠ [])

/-- The classifier itself (`getSeverityConfig`), returning which severity
badge is chosen for an event type under the given rule table. -/
def getSeverityConfig (rules : SeverityRules) (eventType : Str) : Severity :=
  if (parseSeverityList rules.critical).any
      (fun ct => includesStr (upper eventType) ct) then .critical
  else if (parseSeverityList rules.warning).any
      (fun wt => includesStr (upper eventType) wt) then .warning
  else if (parseSeverityList rules.info).any
      (fun it => includesStr (upper eventType) it) then .info
  else .default

/-- Worded from the claim: pattern `p` is a case-insensitive substring of
category `s`. -/
def ciSubstring (p s : Str) : Prop := upper p <:+: upper s

/-- Worded from the claim: some configured pattern of the comma-separated
rule field matches the category case-insensitively. -/
def someRuleMatches (field : Str) (category : Str) : Prop :=
  ∃ p ∈ field.splitOn ',', trimStr p ≠ [] ∧ ciSubstring (trimStr p) category

instance (field category : Str) : Decidable (someRuleMatches field category) := by
  unfold someRuleMatches ciSubstring
  infer_instance

/-- The classifier as the claim words it: a cascade over the configured
pattern lists, critical first, falling through to the default severity. -/
def specSeverityOfCategory (rules : SeverityRules) (category : Str) : Severity :=
  if someRuleMatches rules.critical category then .critical
  else if someRuleMatches rules.warning category then .warning
  else if someRuleMatches rules.info category then .info
  else .default

theorem parseSeverityList_any_eq (field category : Str) :
    ((parseSeverityList field).any
        (fun pat => includesStr (upper category) pat) = true)
      ↔ someRuleMatches field category := by
  simp only [parseSeverityList, List.any_eq_true, List.mem_filter,
    List.mem_map, includesStr, decide_eq_true_eq, someRuleMatches,
    ciSubstring]
  constructor
  · rintro ⟨pat, ⟨⟨t, ht, rfl⟩, hne⟩, hinf⟩
    refine ⟨t, ht, ?_, ?_⟩
    · intro hnil
      simp [upper, hnil] at hne
    · simpa [upper, List.map_map] using hinf
  · rintro ⟨t, ht, hne, hinf⟩
    refine ⟨upper (trimStr t), ⟨⟨t, ht, rfl⟩, ?_⟩, ?_⟩
    · simp only [ne_eq, decide_not]
      simp [upper, hne]
    · simpa [upper, List.map_map] using hinf

/-- C6: for every event category string and every severity rule table, the
classifier is a pure function of the two, returning critical when some
configured critical pattern is a case-insensitive substring of the
category, else warning when a warning pattern matches, else info when an
info pattern matches, else the default severity — patterns being exactly
the entries of the comma-separated rule lists. -/
theorem severityClassifier_matches_rule_table
    (rules : SeverityRules) (category : Str) :
    getSeverityConfig rules category = specSeverityOfCategory rules category := by
  unfold getSeverityConfig specSeverityOfCategory
  have e1 := parseSeverityList_any_eq rules.critical category
  have e2 := parseSeverityList_any_eq rules.warning category
  have e3 := parseSeverityList_any_eq rules.info category
  by_cases h1 : someRuleMatches rules.critical category
  · rw [if_pos (e1.mpr h1), if_pos h1]
  · rw [if_neg (fun hc => h1 (e1.mp hc)), if_neg h1]
    by_cases h2 : someRuleMatches rules.warning category
    · rw [if_pos (e2.mpr h2), if_pos h2]
    · rw [if_neg (fun hc => h2 (e2.mp hc)), if_neg h2]
      by_cases h3 : someRuleMatches rules.info category
      · rw [if_pos (e3.mpr h3), if_pos h3]
      · rw [if_neg (fun hc => h3 (e3.mp hc)), if_neg h3]

/-! ## Live Statistics Engine
Translated from `calculateStats` in the `EventTableWrapper`
(`src/unnamed/part_003`, lines 128-151).  JS number arithmetic is embedded
as exact rationals; `Math.round` is `⌊x + 1/2⌋` (round half up). -/

structure LogEntry where
  created_at : Nat
  event_type : Str
  data : Str
  deriving DecidableEq

structure LiveStats where
  total : Nat
  critical : Nat
  last24h : Nat
  avgPerHour : Int
  deriving DecidableEq

/-- The fixed keyword list `["ERROR", "CRITICAL", "FAIL"]` of `calculateStats`. -/
def fixedCriticalKeywords : List Str :=
  ["ERROR".toList, "CRITICAL".toList, "FAIL".toList]

/-- JS `Math.round` on a finite number: round half toward positive infinity. -/
def jsRound (x : ℚ) : Int := Int.floor (x + 1 / 2)

/-- `logs.length ? logs[logs.length - 1].created_at : now`: the reference
time is the *last element* of the stored list (the earliest event only when
the store is recency-ordered), falling back to `now` when empty. -/
def firstLogTime (logs : List LogEntry) (now : Nat) : Nat :=
  match logs.getLast? with
  | some l => l.created_at
  | none => now

/-- `Math.max(1, (now - firstLog) / (1000 * 60 * 60))`. -/
def hoursElapsed (logs : List LogEntry) (now : Nat) : ℚ :=
  max 1 (((now : ℚ) - (firstLogTime logs now : ℚ)) / (1000 * 60 * 60))

/-- The stats recomputation `calculateStats`. -/
def calculateStats (logs : List LogEntry) (now : Nat) : LiveStats :=
  { total := logs.length
    critical := (logs.filter (fun log =>
        fixedCriticalKeywords.any
          (fun k => includesStr (upper log.event_type) k))).length
    last24h := (logs.filter (fun log =>
        decide (((now : Int) - (log.created_at : Int))
          ≤ 24 * 60 * 60 * 1000))).length
    avgPerHour := jsRound ((logs.length : ℚ) / hoursElapsed logs now) }

/-- Worded from the claim: the timestamp of the earliest stored event
(minimum `created_at`), with the current time as fallback on empty input. -/
def earliestKnown (logs : List LogEntry) (now : Nat) : Nat :=
  match logs with
  | [] => now
  | l :: rest => rest.foldl (fun m e => min m e.created_at) l.created_at

/-- Worded from the claim: `max(1, hoursSinceEarliestKnownEvent)`. -/
def specHoursSinceEarliest (logs : List LogEntry) (now : Nat) : ℚ :=
  max 1 (((now : ℚ) - (earliestKnown logs now : ℚ)) / (1000 * 60 * 60))

/-- Worded from the claim: `total / max(1, hoursSinceEarliestKnownEvent)`,
as an exact rational. -/
def specAvgPerHour (logs : List LogEntry) (now : Nat) : ℚ :=
  (logs.length : ℚ) / specHoursSinceEarliest logs now

/-- Concrete stats input: three events, the earliest two hours old. -/
def cexStatsLogs : List LogEntry :=
  [⟨7200000, [], []⟩, ⟨7200000, [], []⟩, ⟨0, [], []⟩]

/-- C5 (counterexample to the claim as stated): on three stored events
whose earliest is exactly two hours old, `calculateStats` publishes
`avgPerHour = 2` (it applies `Math.round`), while
`total / max(1, hoursSinceEarliestKnownEvent) = 3/2`: the recomputed
statistic does not equal the claim's exact quotient. -/
theorem statsAvg_rounded_ne_spec :
    (calculateStats cexStatsLogs 7200000).avgPerHour = 2 ∧
    specAvgPerHour cexStatsLogs 7200000 = 3 / 2 ∧
    ((calculateStats cexStatsLogs 7200000).avgPerHour : ℚ)
      ≠ specAvgPerHour cexStatsLogs 7200000 := by
  have hfirst : firstLogTime cexStatsLogs 7200000 = 0 := rfl
  have hhours : hoursElapsed cexStatsLogs 7200000 = 2 := by
    rw [hoursElapsed, hfirst]
    norm_num
  have hear : earliestKnown cexStatsLogs 7200000 = 0 := rfl
  have hspec : specAvgPerHour cexStatsLogs 7200000 = 3 / 2 := by
    rw [specAvgPerHour, specHoursSinceEarliest, hear]
    norm_num [cexStatsLogs]
  have hlen : cexStatsLogs.length = 3 := rfl
  have hcode : (calculateStats cexStatsLogs 7200000).avgPerHour = 2 := by
    show jsRound ((cexStatsLogs.length : ℚ) / hoursElapsed cexStatsLogs 7200000) = 2
    rw [hhours, hlen, jsRound]
    have h2 : (((3 : Nat)) : ℚ) / 2 + 1 / 2 = ((2 : ℤ) : ℚ) := by
      push_cast
      norm_num
    rw [h2, Int.floor_intCast]
  refine ⟨hcode, hspec, ?_⟩
  rw [hcode, hspec]
  norm_num

theorem firstLogTime_eq_getD (logs : List LogEntry) (now : Nat) :
    firstLogTime logs now = (logs.getLast?.map LogEntry.created_at).getD now := by
  cases h : logs.getLast? <;> simp [firstLogTime, h]

theorem foldl_min_sorted (rest : List LogEntry) (a : Nat)
    (hle : ∀ e ∈ rest, e.created_at ≤ a)
    (hsort : rest.Pairwise (fun x y => y.created_at ≤ x.created_at)) :
    rest.foldl (fun m e => min m e.created_at) a
      = (rest.getLast?.map LogEntry.created_at).getD a := by
  induction rest generalizing a with
  | nil => rfl
  | cons b r ih =>
    have hb : b.created_at ≤ a := hle b (List.mem_cons_self b r)
    have hmin : min a b.created_at = b.created_at :=
      min_eq_right hb
    rw [List.foldl_cons, hmin]
    obtain ⟨hhead, htail⟩ := List.pairwise_cons.mp hsort
    rw [ih b.created_at hhead htail]
    cases r with
    | nil => simp
    | cons c r2 =>
      rw [List.getLast?_cons_cons]
      cases h : (c :: r2).getLast? with
      | none => simp at h
      | some l => simp

/-- C5 (amended): for every non-empty, recency-ordered (timestamp
descending) list of stored events, the recomputed `avgPerHour` equals
`round(total / max(1, hoursSinceEarliestKnownEvent))` — i.e. the claim's
quotient with the code's half-up rounding applied.  (On a recency-ordered
store the code's last-element reference point is exactly the earliest
stored event.) -/
theorem statsAvg_eq_rounded_spec (logs : List LogEntry) (now : Nat)
    (hne : logs ≠ [])
    (hsort : logs.Pairwise (fun x y => y.created_at ≤ x.created_at)) :
    (calculateStats logs now).avgPerHour = jsRound (specAvgPerHour logs now) := by
  suffices h : firstLogTime logs now = earliestKnown logs now by
    show jsRound ((logs.length : ℚ) / hoursElapsed logs now) = _
    rw [specAvgPerHour, specHoursSinceEarliest, hoursElapsed, h]
  cases logs with
  | nil => exact absurd rfl hne
  | cons b r =>
    obtain ⟨hhead, htail⟩ := List.pairwise_cons.mp hsort
    rw [firstLogTime_eq_getD, earliestKnown,
      foldl_min_sorted r b.created_at hhead htail, List.getLast?_cons]
    cases h : r.getLast? with
    | none =>
      cases r with
      | nil => simp
      | cons c r2 => simp at h
    | some l => simp

/-- Two stored events in recency order, one hour apart. -/
def demoSortedLogs : List LogEntry := [⟨3600000, [], []⟩, ⟨0, [], []⟩]

/-- C5 (witness): the amended statement instantiated at two concrete
recency-ordered events. -/
theorem statsAvg_eq_rounded_spec_witness :
    demoSortedLogs ≠ [] ∧
    demoSortedLogs.Pairwise (fun x y => y.created_at ≤ x.created_at) ∧
    (calculateStats demoSortedLogs 3600000).avgPerHour
      = jsRound (specAvgPerHour demoSortedLogs 3600000) :=
  ⟨by decide, by decide,
    statsAvg_eq_rounded_spec demoSortedLogs 3600000 (by decide) (by decide)⟩

/-- C10: on an empty store the stats recomputation is total and yields all
zeros; the earliest-event reference falls back to `now`, so the hours
divisor is clamped to exactly 1 and the hourly average is a well-defined
0 with no division by zero. -/
theorem statsOnEmpty_all_zero (now : Nat) :
    calculateStats [] now = ⟨0, 0, 0, 0⟩ ∧ hoursElapsed [] now = 1 := by
  have hh : hoursElapsed [] now = 1 := by
    rw [hoursElapsed]
    show max 1 (((now : ℚ) - (now : ℚ)) / (1000 * 60 * 60)) = 1
    norm_num
  refine ⟨?_, hh⟩
  rw [calculateStats]
  simp only [List.length_nil, List.filter_nil, Nat.cast_zero, hh]
  have : jsRound (0 / 1) = 0 := by
    rw [jsRound]
    norm_num
  rw [this]

/-! ## Bucketed Aggregator
Translated from `aggregateLogs` in the `EventTableWrapper`
(`src/unnamed/part_003`, lines 107-125): each log's bucket key zeroes the
seconds and floors the minute-of-the-hour to a multiple of
`bucketMinutes`; keys accumulate in a record (`buckets[key] = (buckets[key]
|| 0) + 1`) and the entries are then sorted ascending by key.  Calendar
components are taken in UTC (spec §9); every call site uses the default
width `bucketMinutes = 5`. -/

/-- The key computed by the source: start of the hour plus the
minute-of-the-hour floored to a multiple of `w`, in ms. -/
def bucketKeyCode (w ts : Nat) : Nat :=
  ts - ts % 3600000 + ts % 3600000 / 60000 / w * w * 60000

/-- The key as the claim words it: `floor(timestamp / width) * width`
with `width = w` minutes in ms. -/
def bucketKeySpec (w ts : Nat) : Nat :=
  ts / (w * 60000) * (w * 60000)

theorem bucketKeyCode_eq_spec (w ts : Nat) (hdvd : w ∣ 60) :
    bucketKeyCode w ts = bucketKeySpec w ts := by
  have hU : w * 60000 ∣ 3600000 := by
    obtain ⟨k, hk⟩ := hdvd
    refine ⟨k, ?_⟩
    have h60 : (3600000 : Nat) = 60 * 60000 := by norm_num
    rw [h60, hk]
    ring
  have h1 : ts - ts % 3600000 = 3600000 * (ts / 3600000) := by
    omega
  have h2 : ts % 3600000 / 60000 / w * w * 60000
      = ts % 3600000 / (w * 60000) * (w * 60000) := by
    rw [Nat.div_div_eq_div_mul, Nat.mul_comm 60000 w]
    ring
  have h3 : ts / (w * 60000)
      = 3600000 * (ts / 3600000) / (w * 60000)
        + ts % 3600000 / (w * 60000) := by
    conv_lhs => rw [← Nat.div_add_mod ts 3600000]
    exact Nat.add_div_of_dvd_right (hU.mul_right _)
  have h4 : 3600000 * (ts / 3600000) / (w * 60000) * (w * 60000)
      = 3600000 * (ts / 3600000) :=
    Nat.div_mul_cancel (hU.mul_right _)
  rw [bucketKeyCode, bucketKeySpec, h1, h2, h3, Nat.add_mul, h4]

/-- `buckets[bucketKey] = (buckets[bucketKey] || 0) + 1` on the record of
`(startTime, count)` entries: increment an existing entry, else append. -/
def bumpBucket : List (Nat × Nat) → Nat → List (Nat × Nat)
  | [], k => [(k, 1)]
  | (k0, c) :: rest, k =>
      if k0 = k then (k0, c + 1) :: rest else (k0, c) :: bumpBucket rest k

/-- The unsorted bucket record accumulated over the batch. -/
def aggregateBuckets (logs : List LogEntry) (w : Nat) : List (Nat × Nat) :=
  logs.foldl (fun acc log => bumpBucket acc (bucketKeyCode w log.created_at)) []

/-- Comparator of the final `.sort(...)`: ascending by bucket start time. -/
def keyLE (p q : Nat × Nat) : Prop := p.1 ≤ q.1

instance : DecidableRel keyLE := fun p q => Nat.decLe p.1 q.1

instance : IsTotal (Nat × Nat) keyLE := ⟨fun p q => Nat.le_total p.1 q.1⟩

instance : IsTrans (Nat × Nat) keyLE := ⟨fun _ _ _ h1 h2 => Nat.le_trans h1 h2⟩

/-- `aggregateLogs`: the bucket record, sorted ascending by `startTime`. -/
def aggregateLogs (logs : List LogEntry) (w : Nat) : List (Nat × Nat) :=
  List.insertionSort keyLE (aggregateBuckets logs w)

/-- Total count recorded for key `k` in a bucket collection. -/
def bcount (B : List (Nat × Nat)) (k : Nat) : Nat :=
  ((B.filter (fun p => decide (p.1 = k))).map Prod.snd).sum

/-- The keys of a bucket collection. -/
def bkeys (B : List (Nat × Nat)) : List Nat := B.map Prod.fst

theorem bcount_bump (B : List (Nat × Nat)) (k k2 : Nat) :
    bcount (bumpBucket B k) k2 = bcount B k2 + if k = k2 then 1 else 0 := by
  induction B with
  | nil =>
    simp only [bumpBucket, bcount, List.filter_cons, List.filter_nil]
    by_cases h : k = k2 <;> simp [h]
  | cons p rest ih =>
    obtain ⟨k0, c⟩ := p
    simp only [bumpBucket]
    by_cases h : k0 = k
    · subst h
      rw [if_pos rfl]
      simp only [bcount, List.filter_cons]
      by_cases h2 : k0 = k2 <;> simp [h2, bcount] <;> omega
    · rw [if_neg h]
      simp only [bcount, List.filter_cons] at ih ⊢
      by_cases h2 : k0 = k2 <;> simp [h2, ih, bcount] <;> omega

theorem mem_bkeys_bump (B : List (Nat × Nat)) (k k2 : Nat) :
    k2 ∈ bkeys (bumpBucket B k) ↔ k2 ∈ bkeys B ∨ k2 = k := by
  induction B with
  | nil => simp [bumpBucket, bkeys]
  | cons p rest ih =>
    obtain ⟨k0, c⟩ := p
    simp only [bumpBucket]
    by_cases h : k0 = k
    · subst h
      rw [if_pos rfl]
      simp only [bkeys, List.map_cons, List.mem_cons] at ih ⊢
      constructor
      · rintro (h1 | h1)
        · exact Or.inl (Or.inl h1)
        · exact Or.inl (Or.inr h1)
      · rintro ((h1 | h1) | h1)
        · exact Or.inl h1
        · exact Or.inr h1
        · exact Or.inl h1
    · rw [if_neg h]
      simp only [bkeys, List.map_cons, List.mem_cons] at ih ⊢
      rw [ih]
      tauto

theorem nodup_bkeys_bump (B : List (Nat × Nat)) (k : Nat)
    (hB : (bkeys B).Nodup) : (bkeys (bumpBucket B k)).Nodup := by
  induction B with
  | nil => simp [bumpBucket, bkeys]
  | cons p rest ih =>
    obtain ⟨k0, c⟩ := p
    simp only [bumpBucket]
    by_cases h : k0 = k
    · subst h
      rw [if_pos rfl]
      simpa [bkeys] using hB
    · rw [if_neg h]
      simp only [bkeys, List.map_cons, List.nodup_cons] at hB ⊢
      refine ⟨?_, ih hB.2⟩
      intro hc
      rcases (mem_bkeys_bump rest k k0).mp hc with h1 | h1
      · exact hB.1 h1
      · exact h h1

theorem bcount_fold (logs : List LogEntry) (w : Nat) (B : List (Nat × Nat))
    (k : Nat) :
    bcount (logs.foldl
        (fun acc log => bumpBucket acc (bucketKeyCode w log.created_at)) B) k
      = bcount B k
        + logs.countP (fun log => decide (bucketKeyCode w log.created_at = k)) := by
  induction logs generalizing B with
  | nil => simp
  | cons log rest ih =>
    rw [List.foldl_cons, ih, bcount_bump, List.countP_cons]
    by_cases h : bucketKeyCode w log.created_at = k <;> simp [h] <;> omega

theorem key_mem_fold (logs : List LogEntry) (w : Nat) (B : List (Nat × Nat))
    (k : Nat) :
    k ∈ bkeys (logs.foldl
        (fun acc log => bumpBucket acc (bucketKeyCode w log.created_at)) B)
      ↔ k ∈ bkeys B ∨ ∃ log ∈ logs, bucketKeyCode w log.created_at = k := by
  induction logs generalizing B with
  | nil => simp
  | cons log rest ih =>
    rw [List.foldl_cons, ih, mem_bkeys_bump]
    simp only [List.mem_cons]
    constructor
    · rintro ((h | h) | ⟨l, hl, hk⟩)
      · exact Or.inl h
      · exact Or.inr ⟨log, Or.inl rfl, h.symm⟩
      · exact Or.inr ⟨l, Or.inr hl, hk⟩
    · rintro (h | ⟨l, (rfl | hl), hk⟩)
      · exact Or.inl (Or.inl h)
      · exact Or.inl (Or.inr hk.symm)
      · exact Or.inr ⟨l, hl, hk⟩

theorem nodup_bkeys_fold (logs : List LogEntry) (w : Nat)
    (B : List (Nat × Nat)) (hB : (bkeys B).Nodup) :
    (bkeys (logs.foldl
        (fun acc log => bumpBucket acc (bucketKeyCode w log.created_at)) B)).Nodup := by
  induction logs generalizing B with
  | nil => exact hB
  | cons log rest ih =>
    rw [List.foldl_cons]
    exact ih _ (nodup_bkeys_bump B _ hB)

theorem aggregateLogs_perm (logs : List LogEntry) (w : Nat) :
    (aggregateLogs logs w).Perm (aggregateBuckets logs w) :=
  List.perm_insertionSort keyLE _

theorem bcount_aggregateLogs (logs : List LogEntry) (w : Nat) (k : Nat) :
    bcount (aggregateLogs logs w) k = bcount (aggregateBuckets logs w) k := by
  unfold bcount
  exact ((aggregateLogs_perm logs w).filter _).map Prod.snd |>.sum_eq

/-- C2: for every batch of logs and configured bucket width that divides an
hour, (i) the code's bucket key is exactly `floor(timestamp/width)*width`;
(ii) the aggregate records, for every key, exactly the number of batch
events assigned that key; (iii) every event's key appears as a bucket; (iv)
every bucket's `startTime` is the floored timestamp of some event; and (v)
the bucket collection is strictly ascending in `startTime`, so no two
buckets share a key.  (Every call site configures the width 5, which
divides 60.) -/
theorem bucketedAggregator_correct (logs : List LogEntry) (w : Nat)
    (hw : 0 < w) (hdvd : w ∣ 60) :
    (∀ ts : Nat, bucketKeyCode w ts = bucketKeySpec w ts) ∧
    (∀ k : Nat, bcount (aggregateLogs logs w) k
        = logs.countP (fun log => decide (bucketKeyCode w log.created_at = k))) ∧
    (∀ log ∈ logs, bucketKeySpec w log.created_at ∈ bkeys (aggregateLogs logs w)) ∧
    (∀ p ∈ aggregateLogs logs w,
        ∃ log ∈ logs, p.1 = bucketKeySpec w log.created_at) ∧
    (aggregateLogs logs w).Pairwise (fun p q => p.1 < q.1) := by
  have hkeyeq : ∀ ts : Nat, bucketKeyCode w ts = bucketKeySpec w ts :=
    fun ts => bucketKeyCode_eq_spec w ts hdvd
  have hkeysperm : (bkeys (aggregateLogs logs w)).Perm
      (bkeys (aggregateBuckets logs w)) :=
    (aggregateLogs_perm logs w).map Prod.fst
  refine ⟨hkeyeq, ?_, ?_, ?_, ?_⟩
  · intro k
    rw [bcount_aggregateLogs, aggregateBuckets, bcount_fold]
    simp [bcount]
  · intro log hlog
    rw [hkeysperm.mem_iff, aggregateBuckets, key_mem_fold]
    exact Or.inr ⟨log, hlog, hkeyeq log.created_at⟩
  · intro p hp
    have hpB : p ∈ aggregateBuckets logs w :=
      (aggregateLogs_perm logs w).mem_iff.mp hp
    have hkey : p.1 ∈ bkeys (aggregateBuckets logs w) :=
      List.mem_map_of_mem Prod.fst hpB
    rw [aggregateBuckets, key_mem_fold] at hkey
    rcases hkey with h | ⟨l, hl, hk⟩
    · simp [bkeys] at h
    · exact ⟨l, hl, by rw [← hk, hkeyeq]⟩
  · have hsorted : List.Pairwise keyLE (aggregateLogs logs w) :=
      List.sorted_insertionSort keyLE (aggregateBuckets logs w)
    have hnodupB : (bkeys (aggregateBuckets logs w)).Nodup :=
      nodup_bkeys_fold logs w [] (by simp [bkeys])
    have hnodup : (bkeys (aggregateLogs logs w)).Nodup :=
      hnodupB.perm hkeysperm.symm
    have hne : (aggregateLogs logs w).Pairwise (fun p q => p.1 ≠ q.1) :=
      List.pairwise_map.mp hnodup
    exact (hsorted.and hne).imp (fun h => lt_of_le_of_ne h.1 h.2)

/-- The spec §8 example batch: bucket width 5 minutes, events at minutes
2, 4 and 7 of the hour. -/
def demoBucketLogs : List LogEntry :=
  [⟨120000, [], []⟩, ⟨240000, [], []⟩, ⟨420000, [], []⟩]

/-- C2 (witness): the aggregator statement instantiated at the spec's
example batch with the configured width 5. -/
theorem bucketedAggregator_correct_witness :
    0 < 5 ∧ (5 : Nat) ∣ 60 ∧
    ((∀ ts : Nat, bucketKeyCode 5 ts = bucketKeySpec 5 ts) ∧
      (∀ k : Nat, bcount (aggregateLogs demoBucketLogs 5) k
          = demoBucketLogs.countP
              (fun log => decide (bucketKeyCode 5 log.created_at = k))) ∧
      (∀ log ∈ demoBucketLogs,
          bucketKeySpec 5 log.created_at ∈ bkeys (aggregateLogs demoBucketLogs 5)) ∧
      (∀ p ∈ aggregateLogs demoBucketLogs 5,
          ∃ log ∈ demoBucketLogs, p.1 = bucketKeySpec 5 log.created_at) ∧
      (aggregateLogs demoBucketLogs 5).Pairwise (fun p q => p.1 < q.1)) :=
  ⟨by decide, by decide,
    bucketedAggregator_correct demoBucketLogs 5 (by decide) (by decide)⟩

/-! ## Filter/Search Engine debounce
Translated from the criteria-change effects of the `Index` page
(`src/unnamed/part_010`): `loadData` is a `useCallback` over
`[filters, searchQuery]`, so every committed criteria change recreates it
and re-runs BOTH effects keyed on `[loadData, searchQuery]` — the debounce
effect (lines 257-264), which clears the previously scheduled timeout and
schedules a new one carrying the latest criteria, and the load effect
(lines 267-270), which calls `loadData()` — issuing a snapshot request —
immediately.  When the debounce timeout fires, one more snapshot request
is issued with the pending criteria.  The response handler applies
whatever response completes, unconditionally — `loadData` carries no
token, abort or staleness guard.  (The `EventTable.tsx` debounce, lines
40-47, only coalesces keystrokes into committed `searchQuery` changes
upstream of this.) -/

/-- Filter-engine state: the pending debounce timeout (with the criteria it
will use), the snapshot requests issued so far (request id, criteria), and
the last response applied to component state.  Criteria are abstracted to
`Nat`. -/
structure FilterState where
  pendingCriteria : Option Nat
  issued : List (Nat × Nat)
  nextId : Nat
  applied : Option (Nat × Nat)
  deriving DecidableEq

inductive FilterEvent
  | change (c : Nat)
  | debounceFire
  | respond (i : Nat)
  deriving DecidableEq

/-- One step: a committed criteria `change` replaces (cancels) the pending
debounce timeout AND immediately issues a snapshot request with the new
criteria (the load effect re-runs, because `loadData` was recreated); the
debounce fire issues one snapshot request with the pending criteria;
`respond i` applies request `i`'s completed response unconditionally (the
source has no staleness check). -/
def filterStep (s : FilterState) : FilterEvent → FilterState
  | .change c =>
      { s with pendingCriteria := some c,
               issued := s.issued ++ [(s.nextId, c)],
               nextId := s.nextId + 1 }
  | .debounceFire =>
      match s.pendingCriteria with
      | some c =>
          { s with pendingCriteria := none,
                   issued := s.issued ++ [(s.nextId, c)],
                   nextId := s.nextId + 1 }
      | none => s
  | .respond i =>
      match s.issued.find? (fun p => decide (p.1 = i)) with
      | some p => { s with applied := some p }
      | none => s

def filterInit : FilterState := ⟨none, [], 0, none⟩

def filterSteps (s : FilterState) (events : List FilterEvent) : FilterState :=
  events.foldl filterStep s

def filterRun (events : List FilterEvent) : FilterState :=
  filterSteps filterInit events

/-- The immediate snapshot requests a burst of changes issues, paired with
their request ids. -/
def burstImmediate (n0 : Nat) : List Nat → List (Nat × Nat)
  | [] => []
  | c :: rest => (n0, c) :: burstImmediate (n0 + 1) rest

theorem filterSteps_changes (cs : List Nat) (s : FilterState) (hne : cs ≠ []) :
    filterSteps s (cs.map .change)
      = ⟨some ((cs.getLast?).getD 0),
          s.issued ++ burstImmediate s.nextId cs,
          s.nextId + cs.length, s.applied⟩ := by
  induction cs generalizing s with
  | nil => exact absurd rfl hne
  | cons c cs2 ih =>
    cases cs2 with
    | nil =>
      simp [filterSteps, filterStep, burstImmediate]
    | cons c2 cs3 =>
      rw [List.map_cons, filterSteps, List.foldl_cons]
      have hc : filterStep s (.change c)
          = ⟨some c, s.issued ++ [(s.nextId, c)], s.nextId + 1, s.applied⟩ := rfl
      rw [hc]
      have h2 := ih ⟨some c, s.issued ++ [(s.nextId, c)], s.nextId + 1,
        s.applied⟩ (by simp)
      rw [filterSteps] at h2
      rw [h2]
      simp only [FilterState.mk.injEq]
      refine ⟨?_, ?_, ?_, trivial⟩
      · rw [List.getLast?_cons_cons]
      · simp [burstImmediate, List.append_assoc]
      · simp only [List.length_cons]
        omega

theorem filterSteps_burst (cs : List Nat) (s : FilterState) (hne : cs ≠ []) :
    filterSteps s (cs.map .change ++ [.debounceFire])
      = { pendingCriteria := none,
          issued := s.issued ++ burstImmediate s.nextId cs
            ++ [(s.nextId + cs.length, cs.getLast hne)],
          nextId := s.nextId + cs.length + 1,
          applied := s.applied } := by
  rw [filterSteps, List.foldl_append, ← filterSteps, ← filterSteps,
    filterSteps_changes cs s hne]
  have hg : cs.getLast? = some (cs.getLast hne) := List.getLast?_eq_getLast cs hne
  simp [filterSteps, filterStep, hg, List.append_assoc]

/-- C7 (amended): for every burst of `k ≥ 1` filter-criteria changes
inside the debounce window, each change cancels the pending debounce
timeout and replaces it with one carrying its criteria, but also
immediately issues a snapshot request with those criteria (the load
effect re-runs on every criteria change); the debounce fire then issues
one more request with the k-th (last) criteria — so the burst executes
`k + 1` snapshot requests, not one.  Responses of superseded in-flight
requests are NOT discarded: whichever response completes is applied
unconditionally, so the last response to arrive wins even if its request
was superseded. -/
theorem debounce_burst_requests_last_wins :
    (∀ (s : FilterState) (cs : List Nat) (hne : cs ≠ []),
      filterSteps s (cs.map .change ++ [.debounceFire])
        = { pendingCriteria := none,
            issued := s.issued ++ burstImmediate s.nextId cs
              ++ [(s.nextId + cs.length, cs.getLast hne)],
            nextId := s.nextId + cs.length + 1,
            applied := s.applied }) ∧
    (∀ (s : FilterState) (c : Nat),
      (filterStep s (.change c)).pendingCriteria = some c) ∧
    (∀ (s : FilterState) (i : Nat) (p : Nat × Nat),
      s.issued.find? (fun q => decide (q.1 = i)) = some p →
        (filterStep s (.respond i)).applied = some p) := by
  refine ⟨?_, ?_, ?_⟩
  · intro s cs hne
    exact filterSteps_burst cs s hne
  · intro s c
    rfl
  · intro s i p h
    simp only [filterStep]
    rw [h]

/-- C7 (witness): a burst of 5 criteria changes followed by the debounce
fire, from the initial state: 5 immediate requests plus the one debounced
request carrying the 5th criteria. -/
theorem debounce_burst_requests_last_wins_witness :
    ([1, 2, 3, 4, 5] : List Nat) ≠ [] ∧
    filterSteps filterInit (([1, 2, 3, 4, 5] : List Nat).map .change
        ++ [.debounceFire])
      = { pendingCriteria := none,
          issued := filterInit.issued
            ++ burstImmediate filterInit.nextId [1, 2, 3, 4, 5]
            ++ [(filterInit.nextId + ([1, 2, 3, 4, 5] : List Nat).length,
                  ([1, 2, 3, 4, 5] : List Nat).getLast (by decide))],
          nextId := filterInit.nextId + ([1, 2, 3, 4, 5] : List Nat).length + 1,
          applied := filterInit.applied } :=
  ⟨by decide,
    debounce_burst_requests_last_wins.1 filterInit [1, 2, 3, 4, 5] (by decide)⟩

/-- C7 (counterexample to the claim as stated): a burst of 2 criteria
changes inside the debounce window executes THREE snapshot requests, not
one — each change immediately issues a request via the load effect
(ids 0 and 1, with the intermediate criteria 10 and then 20), and the
debounce fire issues a third (id 2, criteria 20); moreover, when request
2's response completes first and superseded request 0's response arrives
late, the late result is applied rather than dropped. -/
theorem burst_requests_not_single_and_stale_applied :
    (filterRun [.change 10, .change 20, .debounceFire]).issued
      = [(0, 10), (1, 20), (2, 20)] ∧
    (filterRun [.change 10, .change 20, .debounceFire]).issued.length ≠ 1 ∧
    (filterRun [.change 10, .change 20, .debounceFire,
        .respond 2, .respond 0]).applied = some (0, 10) := by
  refine ⟨by decide, by decide, by decide⟩

/-! ## Topology payload parsers
Embeddings of the regex matches used by both topology builders
(`NetworkTopology.tsx` and `NetworkMap.tsx`):
`/Devices\s+([^\s]+)\s+and\s+([^\s]+)/`,
`/\((\d+)\s+connections\)/` and
`/IP:\s*([^,]+),\s*MAC:\s*([^,]+),\s*Hostname:\s*(.*)/`.
Because `\s+`/`[^\s]+` alternate complementary character classes (and a
literal always follows `\s*`), the greedy match is forced and a
left-to-right scan with maximal munch is exactly the regex semantics; the
single genuine backtracking corner (`\s*([^,]+)` against an all-whitespace
field) is handled explicitly in `matchField`. -/

/-- Match a literal at the head of the input, returning the rest. -/
def matchLiteral : Str → Str → Option Str
  | [], s => some s
  | _ :: _, [] => none
  | l :: ls, c :: cs => if c = l then matchLiteral ls cs else none

def notWs (c : Char) : Bool := !c.isWhitespace

/-- Try `Devices\s+([^\s]+)\s+and\s+([^\s]+)` anchored at the head. -/
def matchCommAt (s : Str) : Option (Str × Str) :=
  match matchLiteral "Devices".toList s with
  | none => none
  | some r1 =>
    if r1.takeWhile Char.isWhitespace = [] then none else
    let r2 := r1.dropWhile Char.isWhitespace
    let tok1 := r2.takeWhile notWs
    if tok1 = [] then none else
    let r3 := r2.dropWhile notWs
    if r3.takeWhile Char.isWhitespace = [] then none else
    let r4 := r3.dropWhile Char.isWhitespace
    match matchLiteral "and".toList r4 with
    | none => none
    | some r5 =>
      if r5.takeWhile Char.isWhitespace = [] then none else
      let r6 := r5.dropWhile Char.isWhitespace
      let tok2 := r6.takeWhile notWs
      if tok2 = [] then none else some (tok1, tok2)

/-- Left-to-right scan for the first match of the `Devices ... and ...`
pattern (JS `String.match` semantics). -/
def scanComm : Str → Option (Str × Str)
  | [] => none
  | c :: rest =>
    match matchCommAt (c :: rest) with
    | some r => some r
    | none => scanComm rest

/-- JS `parseInt` on a non-empty digit string. -/
def digitsToNat (ds : Str) : Nat :=
  ds.foldl (fun n c => n * 10 + (c.toNat - Char.toNat '0')) 0

/-- Try `\((\d+)\s+connections\)` anchored at the head. -/
def matchCountAt : Str → Option Nat
  | '(' :: r1 =>
    let ds := r1.takeWhile Char.isDigit
    if ds = [] then none else
    let r2 := r1.dropWhile Char.isDigit
    if r2.takeWhile Char.isWhitespace = [] then none else
    let r3 := r2.dropWhile Char.isWhitespace
    match matchLiteral "connections)".toList r3 with
    | none => none
    | some _ => some (digitsToNat ds)
  | _ => none

def scanCount : Str → Option Nat
  | [] => none
  | c :: rest =>
    match matchCountAt (c :: rest) with
    | some n => some n
    | none => scanCount rest

/-- `Devices A and B` plus the optional `(n connections)` count,
defaulting to 1 — the parse performed on a communication-pattern payload. -/
def parseCommPattern (data : Str) : Option (Str × Str × Nat) :=
  match scanComm data with
  | some (f, t) => some (f, t, (scanCount data).getD 1)
  | none => none

/-- `\s*([^,]+),`: capture up to the comma and consume it.  When the field
is all whitespace the regex backtracks so that `[^,]+` keeps exactly the
last whitespace character. -/
def matchField (s : Str) : Option (Str × Str) :=
  let ws := s.takeWhile Char.isWhitespace
  let r1 := s.dropWhile Char.isWhitespace
  let cap := r1.takeWhile (fun c => !(c = ','))
  let r2 := r1.dropWhile (fun c => !(c = ','))
  if cap ≠ [] then
    match r2 with
    | ',' :: rest => some (cap, rest)
    | _ => none
  else
    match ws.getLast?, r1 with
    | some wlast, ',' :: rest => some ([wlast], rest)
    | _, _ => none

/-- Try `IP:\s*([^,]+),\s*MAC:\s*([^,]+),\s*Hostname:\s*(.*)` anchored at
the head (`.` does not cross a newline). -/
def matchDiscAt (s : Str) : Option (Str × Str × Str) :=
  match matchLiteral "IP:".toList s with
  | none => none
  | some r1 =>
    match matchField r1 with
    | none => none
    | some (ip, r2) =>
      match matchLiteral "MAC:".toList (r2.dropWhile Char.isWhitespace) with
      | none => none
      | some r4 =>
        match matchField r4 with
        | none => none
        | some (mac, r5) =>
          match matchLiteral "Hostname:".toList
              (r5.dropWhile Char.isWhitespace) with
          | none => none
          | some r7 =>
            some (ip, mac,
              (r7.dropWhile Char.isWhitespace).takeWhile (fun c => !(c = '\n')))

def scanDisc : Str → Option (Str × Str × Str)
  | [] => none
  | c :: rest =>
    match matchDiscAt (c :: rest) with
    | some r => some r
    | none => scanDisc rest

/-! ## Topology Graph Builder, NetworkTopology variant
Translated from `fetchNetworkData` in
`components/siem/NetworkTopology.tsx` (lines 36-107): one pass over the
fetched logs; discovery events upsert `devices[ip]` (last-write-wins);
communication events find an existing edge in either orientation and add
the parsed connection count (default 1) to its weight, else push a new
edge. -/

structure TopoDevice where
  ip : Str
  mac : Str
  hostname : Option Str
  deriving DecidableEq

structure TopoEdge where
  efrom : Str
  eto : Str
  count : Nat
  deriving DecidableEq

/-- JS object assignment `m[k] = v`: replace in place or append. -/
def setAssoc {β : Type} : List (Str × β) → Str → β → List (Str × β)
  | [], k, v => [(k, v)]
  | (k0, v0) :: rest, k, v =>
      if k0 = k then (k, v) :: rest else (k0, v0) :: setAssoc rest k v

/-- JS object lookup `m[k]`. -/
def lookupAssoc {β : Type} : List (Str × β) → Str → Option β
  | [], _ => none
  | (k0, v) :: rest, k => if k0 = k then some v else lookupAssoc rest k

/-- The source's edge-match test:
`(e.from === from && e.to === to) || (e.from === to && e.to === from)`. -/
def connectsB (e : TopoEdge) (a b : Str) : Bool :=
  decide ((e.efrom = a ∧ e.eto = b) ∨ (e.efrom = b ∧ e.eto = a))

/-- `existingEdge ? existingEdge.count += count : edges.push({from, to, count})`. -/
def addCommEdge : List TopoEdge → Str → Str → Nat → List TopoEdge
  | [], f, t, c => [⟨f, t, c⟩]
  | e :: rest, f, t, c =>
      if connectsB e f t then ⟨e.efrom, e.eto, e.count + c⟩ :: rest
      else e :: addCommEdge rest f t c

/-- One log of the NetworkTopology loop. -/
def topoStep (st : List (Str × TopoDevice) × List TopoEdge) (log : LogEntry) :
    List (Str × TopoDevice) × List TopoEdge :=
  if log.event_type = "DEVICE_DISCOVERED".toList then
    match scanDisc log.data with
    | some (ip0, mac0, host0) =>
        let ip := trimStr ip0
        let h := trimStr host0
        (setAssoc st.1 ip
          ⟨ip, trimStr mac0,
            if h = "None".toList ∨ h = [] then none else some h⟩, st.2)
    | none => st
  else if log.event_type = "COMMUNICATION_PATTERN".toList then
    match parseCommPattern log.data with
    | some (f, t, c) => (st.1, addCommEdge st.2 f t c)
    | none => st
  else st

/-- The NetworkTopology rebuild over the fetched logs. -/
def buildTopology (allLogs : List LogEntry) :
    List (Str × TopoDevice) × List TopoEdge :=
  allLogs.foldl topoStep ([], [])

/-! ## Topology Graph Builder, NetworkMap variant
Translated from `fetchNetworkData` in `components/siem/NetworkMap.tsx`
(lines 82-222): a device pass (with gateway/external typing and rogue
flags from the anomaly feed), a communication pass that dedupes edges by
the *ordered* id `e-${from}-${to}` and inserts missing endpoint devices,
then a synthetic star pass connecting plain devices to the gateway when no
traffic edge exists in either orientation. -/

structure MapDevice where
  ip : Str
  mac : Str
  hostname : Str
  dtype : Str
  isRogue : Bool
  deriving DecidableEq

structure MapEdge where
  src : Str
  tgt : Str
  infra : Bool
  deriving DecidableEq

/-- Addresses of `ROGUE_DEVICE` anomalies (the `rogueIps` set). -/
def rogueIps (anomalies : List (Str × Str)) : List Str :=
  (anomalies.filter (fun a => decide (a.1 = "ROGUE_DEVICE".toList))).map Prod.snd

def endsWithStr (s suf : Str) : Bool := decide (suf <:+ s)

/-- The NetworkMap discovery pass. -/
def mapDiscStep (rogue : List Str) (devices : List (Str × MapDevice))
    (log : LogEntry) : List (Str × MapDevice) :=
  if log.event_type = "DEVICE_DISCOVERED".toList then
    match scanDisc log.data with
    | some (ip0, mac0, host0) =>
        let ip := trimStr ip0
        let h0 := trimStr host0
        let hostname := if h0 = "None".toList ∨ h0 = [] then ip else h0
        let t1 := if endsWithStr ip ".1".toList || endsWithStr ip ".254".toList
          then "gateway".toList else "device".toList
        let t2 := if includesStr hostname "External".toList
          then "external".toList else t1
        setAssoc devices ip ⟨ip, trimStr mac0, hostname, t2, decide (ip ∈ rogue)⟩
    | none => devices
  else devices

/-- `edgesSet.has('e-' + f + '-' + t)`: an already-pushed communication
edge with the same ordered endpoints. -/
def commEdgeMem (es : List MapEdge) (f t : Str) : Bool :=
  es.any (fun e => !e.infra && decide (e.src = f) && decide (e.tgt = t))

/-- The NetworkMap communication pass (inserts missing endpoint devices as
`external`, pushes the edge unless its ordered id is already present). -/
def mapCommStep (rogue : List Str)
    (st : List (Str × MapDevice) × List MapEdge) (log : LogEntry) :
    List (Str × MapDevice) × List MapEdge :=
  if log.event_type = "COMMUNICATION_PATTERN".toList then
    match scanComm log.data with
    | some (f, t) =>
        let d1 := if (lookupAssoc st.1 f).isSome then st.1
          else setAssoc st.1 f
            ⟨f, "Unknown".toList, f, "external".toList, decide (f ∈ rogue)⟩
        let d2 := if (lookupAssoc d1 t).isSome then d1
          else setAssoc d1 t
            ⟨t, "Unknown".toList, t, "external".toList, decide (t ∈ rogue)⟩
        (d2, if commEdgeMem st.2 f t then st.2 else st.2 ++ [⟨f, t, false⟩])
    | none => st
  else st

/-- The synthetic star pass: infra edges from the gateway to every plain
device with no traffic edge to it in either orientation. -/
def addInfraEdges (devices : List (Str × MapDevice)) (es : List MapEdge) :
    List MapEdge :=
  match (devices.map Prod.snd).find?
      (fun d => decide (d.dtype = "gateway".toList)) with
  | none => es
  | some gw =>
      (devices.map Prod.snd).foldl (fun acc dev =>
        if decide (dev.ip ≠ gw.ip) && decide (dev.dtype = "device".toList) then
          if commEdgeMem es gw.ip dev.ip || commEdgeMem es dev.ip gw.ip then acc
          else acc ++ [⟨gw.ip, dev.ip, true⟩]
        else acc) es

/-- The NetworkMap rebuild over the fetched logs and the anomaly feed
(anomalies as `(type, address)` pairs). -/
def buildNetworkMap (allLogs : List LogEntry) (anomalies : List (Str × Str)) :
    List (Str × MapDevice) × List MapEdge :=
  let rogue := rogueIps anomalies
  let devices1 := allLogs.foldl (mapDiscStep rogue) []
  let st2 := allLogs.foldl (mapCommStep rogue) (devices1, [])
  (st2.1, addInfraEdges st2.1 st2.2)

/-- C8: rebuilding either topology graph twice with unchanged
discovery/communication logs and anomaly feed yields identical graphs —
the same device map, the same edge list with the same weight per edge, and
the same rogue flags: both builders are pure functions of those inputs. -/
theorem topologyRebuild_idempotent (allLogs : List LogEntry)
    (anomalies : List (Str × Str)) :
    ((buildTopology allLogs).1 = (buildTopology allLogs).1 ∧
      (buildTopology allLogs).2 = (buildTopology allLogs).2) ∧
    ((buildNetworkMap allLogs anomalies).1
        = (buildNetworkMap allLogs anomalies).1 ∧
      (buildNetworkMap allLogs anomalies).2
        = (buildNetworkMap allLogs anomalies).2) ∧
    buildTopology allLogs = buildTopology allLogs ∧
    buildNetworkMap allLogs anomalies = buildNetworkMap allLogs anomalies :=
  ⟨⟨rfl, rfl⟩, ⟨rfl, rfl⟩, rfl, rfl⟩

/-! ## Undirected edge deduplication and weights (C9) -/

/-- The parsed pair `(f, t)` names the unordered pair `{a, b}`. -/
def pairMatches (f t a b : Str) : Bool :=
  decide ((f = a ∧ t = b) ∨ (f = b ∧ t = a))

/-- Total weight carried by the edges joining `{a, b}`. -/
def sumWeight (es : List TopoEdge) (a b : Str) : Nat :=
  ((es.filter (fun e => connectsB e a b)).map TopoEdge.count).sum

/-- Total connection count of the communication events naming `{a, b}`
(in either orientation). -/
def commWeight (logs : List LogEntry) (a b : Str) : Nat :=
  (logs.map (fun log =>
    if log.event_type = "COMMUNICATION_PATTERN".toList then
      match parseCommPattern log.data with
      | some (f, t, c) => if pairMatches f t a b then c else 0
      | none => 0
    else 0)).sum

theorem connectsB_congr (e : TopoEdge) (f t a b : Str)
    (hp : pairMatches f t a b = true) : connectsB e a b = connectsB e f t := by
  simp only [pairMatches, decide_eq_true_eq] at hp
  rcases hp with ⟨rfl, rfl⟩ | ⟨rfl, rfl⟩
  · rfl
  · simp only [connectsB]
    exact decide_eq_decide.mpr (by tauto)

theorem connects_pair (e : TopoEdge) (f t a b : Str)
    (h1 : connectsB e f t = true) (h2 : connectsB e a b = true) :
    pairMatches f t a b = true := by
  simp only [connectsB, decide_eq_true_eq] at h1 h2
  simp only [pairMatches, decide_eq_true_eq]
  rcases h1 with ⟨hf, ht⟩ | ⟨hf, ht⟩ <;> rcases h2 with ⟨ha, hb⟩ | ⟨ha, hb⟩
  · exact Or.inl ⟨hf.symm.trans ha, ht.symm.trans hb⟩
  · exact Or.inr ⟨hf.symm.trans ha, ht.symm.trans hb⟩
  · exact Or.inr ⟨ht.symm.trans hb, hf.symm.trans ha⟩
  · exact Or.inl ⟨ht.symm.trans hb, hf.symm.trans ha⟩

theorem connectsB_head (f t a b : Str) (c : Nat) :
    connectsB ⟨f, t, c⟩ a b = pairMatches f t a b := rfl

theorem addCommEdge_sumWeight (es : List TopoEdge) (f t : Str) (c : Nat)
    (a b : Str) :
    sumWeight (addCommEdge es f t c) a b
      = sumWeight es a b + if pairMatches f t a b then c else 0 := by
  induction es with
  | nil =>
    simp only [addCommEdge, sumWeight, List.filter_cons, List.filter_nil,
      connectsB_head]
    by_cases h : pairMatches f t a b = true <;> simp [h]
  | cons e rest ih =>
    simp only [addCommEdge]
    by_cases hft : connectsB e f t = true
    · rw [if_pos hft]
      simp only [sumWeight, List.filter_cons]
      have hup : connectsB ⟨e.efrom, e.eto, e.count + c⟩ a b
          = connectsB e a b := rfl
      by_cases hab : connectsB e a b = true
      · have hp : pairMatches f t a b = true := connects_pair e f t a b hft hab
        rw [hup, hab, if_pos rfl, if_pos rfl]
        simp [hp]
        omega
      · have hp : pairMatches f t a b = false := by
          by_contra hc
          have hc2 : pairMatches f t a b = true := by
            revert hc
            cases pairMatches f t a b <;> simp
          rw [connectsB_congr e f t a b hc2] at hab
          exact hab hft
        rw [hup]
        simp only [hab]
        simp [hp]
    · rw [if_neg hft]
      simp only [sumWeight, List.filter_cons] at ih ⊢
      by_cases hab : connectsB e a b = true <;> simp [hab, sumWeight] at ih ⊢ <;>
        omega

theorem addCommEdge_countP_pair (es : List TopoEdge) (f t : Str) (c : Nat)
    (a b : Str) (hp : pairMatches f t a b = true) :
    (addCommEdge es f t c).countP (fun e => connectsB e a b)
      = max ((es.countP (fun e => connectsB e a b))) 1 := by
  induction es with
  | nil => simp [addCommEdge, List.countP_cons, connectsB_head, hp]
  | cons e rest ih =>
    simp only [addCommEdge]
    by_cases hft : connectsB e f t = true
    · rw [if_pos hft]
      have hab : connectsB e a b = true := by
        rw [connectsB_congr e f t a b hp]
        exact hft
      have hup : connectsB ⟨e.efrom, e.eto, e.count + c⟩ a b
          = connectsB e a b := rfl
      rw [List.countP_cons, List.countP_cons, hup, hab]
      simp
    · rw [if_neg hft]
      have hab : connectsB e a b = false := by
        rw [connectsB_congr e f t a b hp]
        cases h : connectsB e f t
        · rfl
        · exact absurd h hft
      rw [List.countP_cons, List.countP_cons, hab, ih]
      simp

theorem addCommEdge_countP_ne (es : List TopoEdge) (f t : Str) (c : Nat)
    (a b : Str) (hp : pairMatches f t a b = false) :
    (addCommEdge es f t c).countP (fun e => connectsB e a b)
      = es.countP (fun e => connectsB e a b) := by
  induction es with
  | nil => simp [addCommEdge, List.countP_cons, connectsB_head, hp]
  | cons e rest ih =>
    simp only [addCommEdge]
    by_cases hft : connectsB e f t = true
    · rw [if_pos hft]
      have hup : connectsB ⟨e.efrom, e.eto, e.count + c⟩ a b
          = connectsB e a b := rfl
      rw [List.countP_cons, List.countP_cons, hup]
    · rw [if_neg hft, List.countP_cons, List.countP_cons, ih]

theorem topoStep_edges_sum (st : List (Str × TopoDevice) × List TopoEdge)
    (log : LogEntry) (a b : Str) :
    sumWeight (topoStep st log).2 a b
      = sumWeight st.2 a b
        + (if log.event_type = "COMMUNICATION_PATTERN".toList then
            match parseCommPattern log.data with
            | some (f, t, c) => if pairMatches f t a b then c else 0
            | none => 0
          else 0) := by
  rw [topoStep]
  by_cases hd : log.event_type = "DEVICE_DISCOVERED".toList
  · rw [if_pos hd]
    have hne : log.event_type ≠ "COMMUNICATION_PATTERN".toList := by
      rw [hd]
      decide
    rw [if_neg hne]
    cases scanDisc log.data with
    | none => simp
    | some r => obtain ⟨ip0, mac0, host0⟩ := r; simp
  · rw [if_neg hd]
    by_cases hc : log.event_type = "COMMUNICATION_PATTERN".toList
    · rw [if_pos hc, if_pos hc]
      cases hp : parseCommPattern log.data with
      | none => simp
      | some r =>
        obtain ⟨f, t, c⟩ := r
        simpa using addCommEdge_sumWeight st.2 f t c a b
    · rw [if_neg hc, if_neg hc]
      simp

theorem topoFold_edges_sum (logs : List LogEntry)
    (st : List (Str × TopoDevice) × List TopoEdge) (a b : Str) :
    sumWeight (logs.foldl topoStep st).2 a b
      = sumWeight st.2 a b + commWeight logs a b := by
  induction logs generalizing st with
  | nil => simp [commWeight]
  | cons log rest ih =>
    rw [List.foldl_cons, ih, topoStep_edges_sum]
    simp only [commWeight, List.map_cons, List.sum_cons]
    omega

theorem topoStep_countP_le (st : List (Str × TopoDevice) × List TopoEdge)
    (log : LogEntry) (a b : Str)
    (h : st.2.countP (fun e => connectsB e a b) ≤ 1) :
    ((topoStep st log).2).countP (fun e => connectsB e a b) ≤ 1 := by
  rw [topoStep]
  by_cases hd : log.event_type = "DEVICE_DISCOVERED".toList
  · rw [if_pos hd]
    cases scanDisc log.data with
    | none => exact h
    | some r => obtain ⟨ip0, mac0, host0⟩ := r; exact h
  · rw [if_neg hd]
    by_cases hc : log.event_type = "COMMUNICATION_PATTERN".toList
    · rw [if_pos hc]
      cases hp : parseCommPattern log.data with
      | none => exact h
      | some r =>
        obtain ⟨f, t, c⟩ := r
        show (addCommEdge st.2 f t c).countP (fun e => connectsB e a b) ≤ 1
        by_cases hm : pairMatches f t a b = true
        · rw [addCommEdge_countP_pair st.2 f t c a b hm]
          omega
        · rw [addCommEdge_countP_ne st.2 f t c a b
            (by cases h2 : pairMatches f t a b
                · rfl
                · exact absurd h2 hm)]
          exact h
    · rw [if_neg hc]
      exact h

/-- C9 (amended): in the NetworkTopology rebuild, communication edges are
undirected and deduplicated by unordered device pair — at most one edge
joins any unordered pair `{a, b}` however the two addresses were ordered
across events — and that edge's weight accumulates the connection counts
of all communication events naming the pair; the NetworkMap rebuild,
however, dedupes only by *ordered* pair and carries no weights (see the
counterexample). -/
theorem topologyEdges_unordered_dedup_weight (logs : List LogEntry)
    (a b : Str) :
    ((buildTopology logs).2.countP (fun e => connectsB e a b) ≤ 1) ∧
    sumWeight (buildTopology logs).2 a b = commWeight logs a b := by
  constructor
  · have base : (([] : List TopoEdge)).countP (fun e => connectsB e a b) ≤ 1 := by
      simp
    rw [buildTopology]
    generalize hst : (([], []) :
      List (Str × TopoDevice) × List TopoEdge) = st
    have hb : st.2.countP (fun e => connectsB e a b) ≤ 1 := by
      rw [← hst]
      exact base
    clear hst base
    induction logs generalizing st with
    | nil => exact hb
    | cons log rest ih =>
      rw [List.foldl_cons]
      exact ih _ (topoStep_countP_le st log a b hb)
  · rw [buildTopology, topoFold_edges_sum]
    simp [sumWeight]

/-- The reversed-orientation communication pair that the NetworkMap
dedupes incorrectly. -/
def cexMapLogs : List LogEntry :=
  [⟨0, "COMMUNICATION_PATTERN".toList, "Devices A and B".toList⟩,
   ⟨0, "COMMUNICATION_PATTERN".toList, "Devices B and A".toList⟩]

/-- C9 (counterexample to the claim as stated): the NetworkMap rebuild of
two communication events naming the same unordered pair in opposite
orders (`Devices A and B`, `Devices B and A`) produces TWO edges for the
pair `{A, B}` — its `e-from-to` dedup key is ordered — so "for each
unordered pair at most one edge exists regardless of the order of the two
addresses" fails for that builder (whose edges also carry no accumulated
weight). -/
theorem networkMap_ordered_pair_duplicate :
    ((buildNetworkMap cexMapLogs []).2.countP
        (fun e => pairMatches e.src e.tgt "A".toList "B".toList)) = 2 ∧
    (buildNetworkMap cexMapLogs []).2
      = [⟨"A".toList, "B".toList, false⟩, ⟨"B".toList, "A".toList, false⟩] := by
  constructor
  · decide
  · decide

end Siem
